import Mathlib

/-
Verification of the normalization pipeline of cldfbench_myphoible.py.

The Python module is shallowly embedded below.  External collaborators
(unicodedata.normalize NFC, clldutils.misc.slug, unidecode, the CLTS bipa
lookup, Glottolog) are modelled as explicit function parameters; calls that
can raise in Python (sequence indexing on an empty string, dict lookup with
a missing key) are modelled with Option, where none means the call raises.
-/

namespace MyPhoible

/-- Rendering of an optional string inside a Python f-string: None prints as "None". -/
def optStr : Option String → String
  | some s => s
  | none => "None"

/-- The straight single-quote character, written via its code point. -/
def quoteChar : Char := Char.ofNat 39

/-- Python text[1:-1] on the list of code points: drop the first and the last element. -/
def strip1 (l : List Char) : List Char := l.tail.dropLast

/-- Embedding of normalize_grapheme.  The NFC pass of unicodedata.normalize is an
external collaborator passed in as nfc.  Python raises IndexError when text[0] or
text[-1] is taken on an empty string; this is modelled by Option. -/
def normalize_grapheme (nfc : String → String) (text : String) : Option String :=
  let t0 := (nfc text).data
  match t0.head?, t0.getLast? with
  | some c0, some cl =>
    let t1 := if c0 = '(' ∧ cl = ')' then strip1 t0 else t0
    match t1.head?, t1.getLast? with
    | some c1, some cl1 =>
      let t2 := if c1 = '[' ∧ cl1 = ']' then strip1 t1 else t1
      some (String.mk t2)
    | _, _ => none
  | _, _ => none

/-- Upper-case hexadecimal digit for a value below 16. -/
def hexDigitChar (n : Nat) : Char := if n < 10 then Char.ofNat (48 + n) else Char.ofNat (55 + n)

/-- Fuelled most-significant-first hexadecimal rendering. -/
def natHexAux : Nat → Nat → List Char
  | 0, _ => []
  | fuel + 1, n => if n < 16 then [hexDigitChar n] else natHexAux fuel (n / 16) ++ [hexDigitChar (n % 16)]

/-- Upper-case hexadecimal digits of n, most significant first, no leading zeros. -/
def natHex (n : Nat) : List Char := natHexAux (n + 1) n

/-- Python "{0:0{1}X}".format(n, 4): upper-case hex, zero-padded to at least four digits,
wider when the number needs more digits. -/
def hexPadMin4 (n : Nat) : List Char := List.replicate (4 - (natHex n).length) '0' ++ natHex n

/-- One element of the list comprehension in compute_id: "u" followed by the padded
hexadecimal code point of one character. -/
def uToken (c : Char) : List Char := 'u' :: hexPadMin4 c.toNat

/-- The unicode_repr half of compute_id: the code-point fingerprint of the string,
the u-tokens of all characters concatenated with no separator. -/
def unicode_repr (text : String) : String := String.mk (text.data.map uToken).flatten

/-- Embedding of compute_id.  slug and unidecode are external collaborators passed
in as slugFn and unidecodeFn.  The result is label, underscore, fingerprint. -/
def compute_id (slugFn unidecodeFn : String → String) (text : String) : String :=
  let label := slugFn (unidecodeFn text)
  label ++ "_" ++ unicode_repr text

/-- Numeric value of an upper-case hexadecimal digit character; used only to decode
the fingerprint in the injectivity proof. -/
def hexCharVal (c : Char) : Nat := if c.toNat ≤ 57 then c.toNat - 48 else c.toNat - 55

/-- Hexadecimal decoding of a digit string onto an accumulator; the left inverse of
the fingerprint rendering, used only in the injectivity proof. -/
def parseHexFrom (acc : Nat) (l : List Char) : Nat :=
  l.foldl (fun a c => a * 16 + hexCharVal c) acc

/-- The common intermediate record shape produced by all format readers.
inv_id is an Option because the row-inheritance reader starts with
curr_inventory_id = None; marginal is set only by the UPSID reader. -/
structure RawEntry where
  lang_id : String
  source : String
  inv_id : Option String
  segment_raw : String
  marginal : Option String
deriving DecidableEq

/-- The entry built for one row of UPSID_Segments.tsv in read_phoible_upsid, after
the three in-memory joins produced the language name, the inventory id and the IPA
string for the row.  The marginal flag is str(row["anomalous"] != "0"). -/
def upsidEntry (langName invId ipa anomalous : String) : RawEntry :=
  { lang_id := "UPSID_" ++ langName
    source := "PHOIBLE_UPSID"
    inv_id := some invId
    segment_raw := ipa
    marginal := some (if anomalous = "0" then "False" else "True") }

/-- One csv.DictReader row, as an association list from field name to cell value. -/
abbrev Row := List (String × String)

/-- Cell access on a DictReader row.  Both a missing trailing cell (None) and an
empty cell are falsy in the Python truthiness checks, so both are the empty string. -/
def rowGet (row : Row) (field : String) : String := (row.lookup field).getD ""

/-- Segment-column selection of read_phoible_common: PhonemeOld, else Segment,
else Phoneme. -/
def selectSegmentField (fieldnames : List String) : String :=
  if "PhonemeOld" ∈ fieldnames then "PhonemeOld"
  else if "Segment" ∈ fieldnames then "Segment"
  else "Phoneme"

/-- The entry dict appended by read_phoible_common for one row. -/
def mkCommonEntry (source : String) (inv lang : Option String) (seg : String) : RawEntry :=
  { lang_id := source ++ "_" ++ optStr lang
    source := "PHOIBLE_" ++ source
    inv_id := inv
    segment_raw := seg
    marginal := none }

/-- The row loop of read_phoible_common: curr_inventory_id and curr_lang_name are
threaded row to row, updated by any row with a non-empty cell, and a row with an
empty segment cell emits nothing. -/
def readCommonAux (segField source : String) : List Row → Option String → Option String → List RawEntry
  | [], _, _ => []
  | row :: rest, inv, lang =>
    let invN := if rowGet row "InventoryID" ≠ "" then some (rowGet row "InventoryID") else inv
    let langN := if rowGet row "LanguageName" ≠ "" then some (rowGet row "LanguageName") else lang
    let seg := rowGet row segField
    if seg ≠ "" then
      mkCommonEntry source invN langN seg :: readCommonAux segField source rest invN langN
    else
      readCommonAux segField source rest invN langN

/-- Embedding of read_phoible_common, with the rows of the TSV file and its header
passed in instead of the file handle. -/
def read_phoible_common (fieldnames : List String) (rows : List Row) (source : String) : List RawEntry :=
  readCommonAux (selectSegmentField fieldnames) source rows none none

/-- Each row paired with the list of rows up to and including it. -/
def cumRowsAux (acc : List Row) : List Row → List (List Row × Row)
  | [] => []
  | r :: rs => (acc ++ [r], r) :: cumRowsAux (acc ++ [r]) rs

/-- Each row of the input paired with its inclusive prefix of rows. -/
def cumRows (rows : List Row) : List (List Row × Row) := cumRowsAux [] rows

/-- The last non-empty cell of the given field over a run of rows, starting from init. -/
def lastField (field : String) (init : Option String) (rows : List Row) : Option String :=
  rows.foldl (fun st row => if rowGet row field ≠ "" then some (rowGet row field) else st) init

/-- The marginality marking at the top of the per-entry loop of cmd_makecldf: an
angle-bracketed or straight-quoted raw segment is stripped and marked "True",
every other entry is marked "False", regardless of any flag a reader set.
Indexing segment_raw on an empty string raises in Python, hence the Option. -/
def markMarginal (e : RawEntry) : Option RawEntry :=
  match e.segment_raw.data.head?, e.segment_raw.data.getLast? with
  | some c0, some cl =>
    if c0 = '<' ∧ cl = '>' then
      some { e with segment_raw := String.mk (strip1 e.segment_raw.data), marginal := some "True" }
    else if c0 = quoteChar ∧ cl = quoteChar then
      some { e with segment_raw := String.mk (strip1 e.segment_raw.data), marginal := some "True" }
    else
      some { e with marginal := some "False" }
  | _, _ => none

/-- The allophone-group simplification of cmd_makecldf: when the raw segment has at
least three characters and contains a pipe, keep only the part before the first pipe. -/
def allophoneSplit (e : RawEntry) : RawEntry :=
  if 3 ≤ e.segment_raw.data.length ∧ '|' ∈ e.segment_raw.data then
    { e with segment_raw := String.mk (e.segment_raw.data.takeWhile (fun c => c ≠ '|')) }
  else e

/-- A resolved CLTS BIPA sound: its string rendering and its category name. -/
structure BipaSound where
  grapheme : String
  name : String
deriving DecidableEq

/-- The canonicalization step of cmd_makecldf: clts.bipa lookup on the normalized
string, modelled by the abstract function bipa where none stands for an
UnknownSound result.  Returns the parameter id, the BIPA grapheme and the
description. -/
def canonicalize (bipa : String → Option BipaSound) (slugFn unidecodeFn : String → String)
    (normalized : String) : String × String × String :=
  match bipa normalized with
  | none => ("UNK_" ++ compute_id slugFn unidecodeFn normalized, "", "")
  | some sound => ("BIPA_" ++ compute_id slugFn unidecodeFn normalized, sound.grapheme, sound.name)

/-- The outcome of the per-entry segment processing in cmd_makecldf: the entry after
marginality marking and allophone splitting, its normalized text, and the derived
parameter tuple fields. -/
structure ProcResult where
  entry : RawEntry
  normalized : String
  par_id : String
  bipa_grapheme : String
  desc : String
deriving DecidableEq

/-- One pass of the cmd_makecldf loop body over a single entry, up to and including
the parameter tuple: marginality marking, allophone splitting, normalization and
canonicalization. -/
def processSegment (nfc : String → String) (bipa : String → Option BipaSound)
    (slugFn unidecodeFn : String → String) (e : RawEntry) : Option ProcResult :=
  match markMarginal e with
  | none => none
  | some e1 =>
    let e2 := allophoneSplit e1
    match normalize_grapheme nfc e2.segment_raw with
    | none => none
    | some normalized =>
      let trip := canonicalize bipa slugFn unidecodeFn normalized
      some { entry := e2, normalized := normalized, par_id := trip.1,
             bipa_grapheme := trip.2.1, desc := trip.2.2 }

/-- A cell value in a values dict: a plain string or a list of citation keys. -/
inductive FieldVal where
  | s : String → FieldVal
  | ls : List String → FieldVal
deriving DecidableEq

/-- Read access to the defaultdict(list) source_map: a missing key yields []. -/
def sourceMapGet (sm : List (String × List String)) (k : String) : List String :=
  (sm.lookup k).getD []

/-- The values dict appended per entry in cmd_makecldf, as an association list in the
order the Python dict literal is written.  The phoible_lang lookup raises KeyError
when the inventory id is unmapped (or still None), modelled by Option. -/
def mkValue (slugFn : String → String) (phoibleLang : List (String × String))
    (sm : List (String × List String)) (counter : Nat) (pr : ProcResult) :
    Option (List (String × FieldVal)) :=
  match pr.entry.inv_id with
  | none => none
  | some invId =>
    match phoibleLang.lookup invId with
    | none => none
    | some langId =>
      some [("ID", FieldVal.s (Nat.repr counter)),
            ("Language_ID", FieldVal.s langId),
            ("Parameter_ID", FieldVal.s pr.par_id),
            ("Value", FieldVal.s pr.entry.segment_raw),
            ("Contribution_ID", FieldVal.s invId),
            ("Source", FieldVal.ls (sourceMapGet sm invId)),
            ("Catalog", FieldVal.s (slugFn pr.entry.source))]

/-- One parameter tuple collected by the loop: parameter id, normalized text,
BIPA grapheme, description. -/
abbrev ParamTuple := String × String × String × String

/-- One row of the ParameterTable, built from a parameter tuple. -/
structure SegmentRecord where
  ID : String
  Name : String
  BIPA : String
  Description : String
deriving DecidableEq

/-- The dict built for one parameter tuple in the segments list comprehension. -/
def mkSegRecord (p : ParamTuple) : SegmentRecord :=
  { ID := p.1, Name := p.2.1, BIPA := p.2.2.1, Description := p.2.2.2 }

/-- The segments list comprehension of cmd_makecldf over set(parameters): one record
per distinct tuple, with exact-tuple equality and no further check. -/
def buildSegments (parameters : List ParamTuple) : List SegmentRecord :=
  parameters.dedup.map mkSegRecord

/-- The whole per-entry loop of cmd_makecldf over a list of entries, starting from a
given counter: the values list and the parameters list, or none when some entry
makes the loop raise. -/
def processAll (nfc : String → String) (bipa : String → Option BipaSound)
    (slugFn unidecodeFn : String → String) (phoibleLang : List (String × String))
    (sm : List (String × List String)) :
    List RawEntry → Nat → Option (List (List (String × FieldVal)) × List ParamTuple)
  | [], _ => some ([], [])
  | e :: rest, counter =>
    match processSegment nfc bipa slugFn unidecodeFn e with
    | none => none
    | some pr =>
      match mkValue slugFn phoibleLang sm counter pr with
      | none => none
      | some v =>
        match processAll nfc bipa slugFn unidecodeFn phoibleLang sm rest (counter + 1) with
        | none => none
        | some rem =>
          some (v :: rem.1, (pr.par_id, pr.normalized, pr.bipa_grapheme, pr.desc) :: rem.2)

/-- The parameter id produced by processSegment is exactly the first component of
canonicalize applied to the normalized text recorded in the result. -/
theorem processSegment_par_id (nfc : String → String) (bipa : String → Option BipaSound)
    (slugFn unidecodeFn : String → String) (e : RawEntry) (r : ProcResult)
    (h : processSegment nfc bipa slugFn unidecodeFn e = some r) :
    r.par_id = (canonicalize bipa slugFn unidecodeFn r.normalized).1 := by
  unfold processSegment at h
  cases hm : markMarginal e with
  | none => rw [hm] at h; exact absurd h (by simp)
  | some e1 =>
    rw [hm] at h
    dsimp only at h
    cases hn : normalize_grapheme nfc (allophoneSplit e1).segment_raw with
    | none => rw [hn] at h; exact absurd h (by simp)
    | some normalized =>
      rw [hn] at h
      dsimp only at h
      simp only [Option.some.injEq] at h
      subst h
      rfl

/-- C2: two entries whose post-normalization text coincides receive the same
parameter id, whatever their source family or language was. -/
theorem c2_param_id_depends_only_on_normalized (nfc : String → String)
    (bipa : String → Option BipaSound) (slugFn unidecodeFn : String → String)
    (e1 e2 : RawEntry) (r1 r2 : ProcResult)
    (h1 : processSegment nfc bipa slugFn unidecodeFn e1 = some r1)
    (h2 : processSegment nfc bipa slugFn unidecodeFn e2 = some r2)
    (hn : r1.normalized = r2.normalized) : r1.par_id = r2.par_id := by
  rw [processSegment_par_id nfc bipa slugFn unidecodeFn e1 r1 h1,
      processSegment_par_id nfc bipa slugFn unidecodeFn e2 r2 h2, hn]

/-- Witness for C2: an AA entry "(a)" and an EA entry "[a]" both normalize to "a"
and get the same parameter id. -/
theorem c2_param_id_depends_only_on_normalized_witness :
    (ProcResult.mk { lang_id := "AA_x", source := "PHOIBLE_AA", inv_id := some "1",
                     segment_raw := "(a)", marginal := some "False" } "a" "UNK__u0061" "" "").par_id =
    (ProcResult.mk { lang_id := "EA_y", source := "PHOIBLE_EA", inv_id := some "2",
                     segment_raw := "[a]", marginal := some "False" } "a" "UNK__u0061" "" "").par_id :=
  c2_param_id_depends_only_on_normalized id (fun _ => none) (fun _ => "") (fun _ => "")
    { lang_id := "AA_x", source := "PHOIBLE_AA", inv_id := some "1",
      segment_raw := "(a)", marginal := none }
    { lang_id := "EA_y", source := "PHOIBLE_EA", inv_id := some "2",
      segment_raw := "[a]", marginal := none }
    _ _ (by decide) (by decide) rfl

/-- C8: canonicalize yields a BIPA_-prefixed parameter id together with the
rendering and category name of the reference on a resolved string, and, without
failing, a UNK_-prefixed id with empty canonical form and description on an
unresolved one. -/
theorem c8_canonicalize_prefixes (bipa : String → Option BipaSound)
    (slugFn unidecodeFn : String → String) (s : String) :
    (bipa s = none →
      canonicalize bipa slugFn unidecodeFn s =
        ("UNK_" ++ compute_id slugFn unidecodeFn s, "", "")) ∧
    (∀ b, bipa s = some b →
      canonicalize bipa slugFn unidecodeFn s =
        ("BIPA_" ++ compute_id slugFn unidecodeFn s, b.grapheme, b.name)) := by
  constructor
  · intro h; simp [canonicalize, h]
  · intro b h; simp [canonicalize, h]

/-- Witness for C8 at a reference resolving only "a". -/
theorem c8_canonicalize_prefixes_witness :
    canonicalize (fun _ => none) (fun _ => "") (fun _ => "") "zz" =
      ("UNK_" ++ compute_id (fun _ => "") (fun _ => "") "zz", "", "") ∧
    canonicalize (fun _ => some { grapheme := "a", name := "vowel" }) (fun _ => "") (fun _ => "") "a" =
      ("BIPA_" ++ compute_id (fun _ => "") (fun _ => "") "a", "a", "vowel") :=
  ⟨(c8_canonicalize_prefixes (fun _ => none) (fun _ => "") (fun _ => "") "zz").1 rfl,
   (c8_canonicalize_prefixes (fun _ => some { grapheme := "a", name := "vowel" })
      (fun _ => "") (fun _ => "") "a").2 { grapheme := "a", name := "vowel" } rfl⟩

/-- C10: an inventory id absent from the bibliography map gets an empty citation
list and the value is still produced without an error, while an inventory id
absent from the language map makes the value construction fail. -/
theorem c10_citation_default_vs_language_fatal (slugFn : String → String)
    (pl : List (String × String)) (sm : List (String × List String))
    (counter : Nat) (pr : ProcResult) (k : String) (hk : pr.entry.inv_id = some k) :
    (pl.lookup k = none → mkValue slugFn pl sm counter pr = none) ∧
    (∀ langId, pl.lookup k = some langId → sm.lookup k = none →
      mkValue slugFn pl sm counter pr =
        some [("ID", FieldVal.s (Nat.repr counter)),
              ("Language_ID", FieldVal.s langId),
              ("Parameter_ID", FieldVal.s pr.par_id),
              ("Value", FieldVal.s pr.entry.segment_raw),
              ("Contribution_ID", FieldVal.s k),
              ("Source", FieldVal.ls []),
              ("Catalog", FieldVal.s (slugFn pr.entry.source))]) := by
  constructor
  · intro h
    simp only [mkValue, hk, h]
  · intro langId hl hs
    simp only [mkValue, hk, hl, sourceMapGet, hs, Option.getD_none]

/-- Witness for C10: inventory id "9" is in the language map but not in the
bibliography map; the value is emitted with an empty citation list.  Inventory id
"9" missing from the language map makes the construction fail. -/
theorem c10_citation_default_vs_language_fatal_witness :
    (mkValue (fun _ => "") [] [] 1
      (ProcResult.mk { lang_id := "AA_x", source := "PHOIBLE_AA", inv_id := some "9",
                       segment_raw := "p", marginal := some "False" } "p" "UNK__u0070" "" "") = none) ∧
    (mkValue (fun _ => "") [("9", "AA_x")] [] 1
      (ProcResult.mk { lang_id := "AA_x", source := "PHOIBLE_AA", inv_id := some "9",
                       segment_raw := "p", marginal := some "False" } "p" "UNK__u0070" "" "") =
      some [("ID", FieldVal.s "1"),
            ("Language_ID", FieldVal.s "AA_x"),
            ("Parameter_ID", FieldVal.s "UNK__u0070"),
            ("Value", FieldVal.s "p"),
            ("Contribution_ID", FieldVal.s "9"),
            ("Source", FieldVal.ls []),
            ("Catalog", FieldVal.s "")]) :=
  ⟨(c10_citation_default_vs_language_fatal (fun _ => "") [] [] 1
      (ProcResult.mk { lang_id := "AA_x", source := "PHOIBLE_AA", inv_id := some "9",
                       segment_raw := "p", marginal := some "False" } "p" "UNK__u0070" "" "")
      "9" rfl).1 rfl,
   (c10_citation_default_vs_language_fatal (fun _ => "") [("9", "AA_x")] [] 1
      (ProcResult.mk { lang_id := "AA_x", source := "PHOIBLE_AA", inv_id := some "9",
                       segment_raw := "p", marginal := some "False" } "p" "UNK__u0070" "" "")
      "9" rfl).2 "AA_x" rfl rfl⟩

/-- C1, amended: the aggregation-stage marginality check depends only on the raw
segment string and overwrites whatever flag a reader set; but it recognizes only
angle brackets and straight quotes, so a raw value "(x)" coming from the UPSID
reader with an explicit marginal flag ends up with marginal "False". -/
theorem c1_marginal_overwrite (e1 e2 : RawEntry) (langName invId anomalous : String) :
    (e1.segment_raw = e2.segment_raw →
      (markMarginal e1).map RawEntry.marginal = (markMarginal e2).map RawEntry.marginal) ∧
    (markMarginal (upsidEntry langName invId "(x)" anomalous)).map RawEntry.marginal =
      some (some "False") := by
  constructor
  · intro h
    unfold markMarginal
    rw [h]
    rcases e2.segment_raw.data.head? with _ | c0 <;>
      rcases e2.segment_raw.data.getLast? with _ | cl <;> try rfl
    dsimp only
    by_cases h1 : c0 = '<' ∧ cl = '>'
    · simp only [if_pos h1]; rfl
    · simp only [if_neg h1]
      by_cases h2 : c0 = quoteChar ∧ cl = quoteChar
      · simp only [if_pos h2]; rfl
      · simp only [if_neg h2]; rfl
  · rfl

/-- Witness for C1: two entries with the same raw segment but different incoming
flags get the same outgoing flag. -/
theorem c1_marginal_overwrite_witness :
    (markMarginal { lang_id := "UPSID_a", source := "PHOIBLE_UPSID", inv_id := some "1",
                    segment_raw := "<k>", marginal := some "True" }).map RawEntry.marginal =
    (markMarginal { lang_id := "AA_b", source := "PHOIBLE_AA", inv_id := some "2",
                    segment_raw := "<k>", marginal := none }).map RawEntry.marginal :=
  (c1_marginal_overwrite
    { lang_id := "UPSID_a", source := "PHOIBLE_UPSID", inv_id := some "1",
      segment_raw := "<k>", marginal := some "True" }
    { lang_id := "AA_b", source := "PHOIBLE_AA", inv_id := some "2",
      segment_raw := "<k>", marginal := none } "x" "1" "0").1 rfl

/-- Counterexample for C1 as stated: the UPSID reader flags the anomalous entry
"(x)" marginal "True", yet after the aggregation-stage check the entry carries
marginal "False", not "True". -/
theorem c1_paren_marginal_counterexample :
    (upsidEntry "Lak" "4" "(x)" "1").marginal = some "True" ∧
    (markMarginal (upsidEntry "Lak" "4" "(x)" "1")).map RawEntry.marginal =
      some (some "False") := by decide

/-- C3: the loop of cmd_makecldf evaluated on a UPSID entry whose marginal flag was
computed: the single emitted value record has exactly the seven keys ID,
Language_ID, Parameter_ID, Value, Contribution_ID, Source and Catalog, and
Marginal is not among them, although the ValueTable schema declares a Marginal
column and the loop computed the flag. -/
theorem c3_value_record_has_no_marginal_key :
    ((processAll id (fun _ => none) (fun _ => "") (fun _ => "") [("1", "AA_x")] []
        [upsidEntry "L" "1" "p" "1"] 1).map
      (fun r => r.1.map (fun v => v.map Prod.fst))) =
      some [["ID", "Language_ID", "Parameter_ID", "Value", "Contribution_ID", "Source", "Catalog"]] ∧
    "Marginal" ∉ ["ID", "Language_ID", "Parameter_ID", "Value", "Contribution_ID", "Source", "Catalog"] := by
  decide

/-- C6, amended: deduplication of parameter tuples is exact-tuple deduplication
with no assertion; two distinct tuples are each kept as their own segment record,
even when they agree on the parameter id, and the two records differ. -/
theorem c6_conflicting_tuples_kept (ps : List ParamTuple) (p1 p2 : ParamTuple)
    (h1 : p1 ∈ ps) (h2 : p2 ∈ ps) (hne : p1 ≠ p2) :
    mkSegRecord p1 ∈ buildSegments ps ∧ mkSegRecord p2 ∈ buildSegments ps ∧
    mkSegRecord p1 ≠ mkSegRecord p2 := by
  refine ⟨List.mem_map_of_mem _ (List.mem_dedup.mpr h1),
          List.mem_map_of_mem _ (List.mem_dedup.mpr h2), ?_⟩
  intro h
  apply hne
  obtain ⟨a1, b1, c1, d1⟩ := p1
  obtain ⟨a2, b2, c2, d2⟩ := p2
  simp only [mkSegRecord, SegmentRecord.mk.injEq] at h
  obtain ⟨ha, hb, hc, hd⟩ := h
  subst ha; subst hb; subst hc; subst hd
  rfl

/-- Witness for C6 amended, on two tuples sharing a parameter id. -/
theorem c6_conflicting_tuples_kept_witness :
    mkSegRecord ("P", "a", "", "d1") ∈ buildSegments [("P", "a", "", "d1"), ("P", "a", "", "d2")] ∧
    mkSegRecord ("P", "a", "", "d2") ∈ buildSegments [("P", "a", "", "d1"), ("P", "a", "", "d2")] ∧
    mkSegRecord ("P", "a", "", "d1") ≠ mkSegRecord ("P", "a", "", "d2") :=
  c6_conflicting_tuples_kept [("P", "a", "", "d1"), ("P", "a", "", "d2")]
    ("P", "a", "", "d1") ("P", "a", "", "d2") (by decide) (by decide) (by decide)

/-- Counterexample for C6 as stated: two parameter tuples with the same id but
different descriptions are silently kept as two segment records with the same ID;
no assertion failure occurs, the build function returns normally. -/
theorem c6_no_assertion_counterexample :
    buildSegments [("UNK_a_u0061", "a", "", "one"), ("UNK_a_u0061", "a", "", "two")] =
      [{ ID := "UNK_a_u0061", Name := "a", BIPA := "", Description := "one" },
       { ID := "UNK_a_u0061", Name := "a", BIPA := "", Description := "two" }] ∧
    ({ ID := "UNK_a_u0061", Name := "a", BIPA := "", Description := "one" } : SegmentRecord) ≠
      { ID := "UNK_a_u0061", Name := "a", BIPA := "", Description := "two" } := by decide

/-- A list of characters is empty, a singleton, or has a first element, a middle
and a last element. -/
theorem char_list_shape (l : List Char) :
    l = [] ∨ (∃ c, l = [c]) ∨ ∃ c d m, l = c :: m ++ [d] := by
  cases l with
  | nil => exact Or.inl rfl
  | cons c t =>
    rcases List.eq_nil_or_concat t with h | ⟨m, d, h⟩
    · exact Or.inr (Or.inl ⟨c, by rw [h]⟩)
    · exact Or.inr (Or.inr ⟨c, d, m, by simp [h, List.concat_eq_append]⟩)

/-- Head, last element and Python text[1:-1] of an end-split character list. -/
theorem shape_facts (c d : Char) (m : List Char) :
    (c :: m ++ [d]).head? = some c ∧ (c :: m ++ [d]).getLast? = some d ∧
    strip1 (c :: m ++ [d]) = m :=
  ⟨rfl, List.getLast?_concat _, List.dropLast_concat⟩

/-- C4, amended: on every non-empty input whose NFC form is not exactly "()",
normalize_grapheme returns without failing, and its result is the empty string
only when the NFC form of the input was exactly "[]" or "([])".  The input "()"
itself makes the second indexing step fail, see the counterexample. -/
theorem c4_normalize_no_crash_amended (nfc : String → String) (s : String)
    (hs : s ≠ "") (h1 : nfc s ≠ "") (h2 : nfc s ≠ "()") :
    (normalize_grapheme nfc s).isSome = true ∧
    (normalize_grapheme nfc s = some "" → nfc s = "[]" ∨ nfc s = "([])") := by
  unfold normalize_grapheme
  rcases char_list_shape (nfc s).data with hd | ⟨c, hd⟩ | ⟨c, d, m, hd⟩
  · exact absurd (congrArg String.mk hd) h1
  · rw [hd]
    have hcc : ¬(c = '(' ∧ c = ')') := by
      rintro ⟨rfl, hcc⟩; exact absurd hcc (by decide)
    have hbb : ¬(c = '[' ∧ c = ']') := by
      rintro ⟨rfl, hbb⟩; exact absurd hbb (by decide)
    simp only [List.head?_cons, List.getLast?_singleton]
    simp only [if_neg hcc, List.head?_cons, List.getLast?_singleton]
    simp only [if_neg hbb]
    refine ⟨rfl, fun he => ?_⟩
    exact absurd (congrArg String.data (Option.some.inj he)) (List.cons_ne_nil c [])
  · rw [hd]
    simp only [(shape_facts c d m).1, (shape_facts c d m).2.1]
    by_cases hpar : c = '(' ∧ d = ')'
    · simp only [if_pos hpar, (shape_facts c d m).2.2]
      rcases char_list_shape m with hm | ⟨c1, hm⟩ | ⟨c1, d1, m1, hm⟩
      · obtain ⟨rfl, rfl⟩ := hpar
        rw [hm] at hd
        exact absurd ((congrArg String.mk hd).trans (by decide)) h2
      · rw [hm]
        have hbb1 : ¬(c1 = '[' ∧ c1 = ']') := by
          rintro ⟨rfl, hx⟩; exact absurd hx (by decide)
        simp only [List.head?_cons, List.getLast?_singleton]
        simp only [if_neg hbb1]
        refine ⟨rfl, fun he => ?_⟩
        exact absurd (congrArg String.data (Option.some.inj he)) (List.cons_ne_nil c1 [])
      · rw [hm]
        simp only [(shape_facts c1 d1 m1).1, (shape_facts c1 d1 m1).2.1]
        by_cases hbr : c1 = '[' ∧ d1 = ']'
        · simp only [if_pos hbr, (shape_facts c1 d1 m1).2.2]
          refine ⟨rfl, fun he => ?_⟩
          have hm1 : m1 = [] := congrArg String.data (Option.some.inj he)
          right
          obtain ⟨rfl, rfl⟩ := hpar
          obtain ⟨rfl, rfl⟩ := hbr
          rw [hm1] at hm
          rw [hm] at hd
          exact (congrArg String.mk hd).trans (by decide)
        · simp only [if_neg hbr]
          refine ⟨rfl, fun he => ?_⟩
          exact absurd (congrArg String.data (Option.some.inj he)) (by simp)
    · simp only [if_neg hpar, (shape_facts c d m).1, (shape_facts c d m).2.1]
      by_cases hbr : c = '[' ∧ d = ']'
      · simp only [if_pos hbr, (shape_facts c d m).2.2]
        refine ⟨rfl, fun he => ?_⟩
        have hm0 : m = [] := congrArg String.data (Option.some.inj he)
        left
        obtain ⟨rfl, rfl⟩ := hbr
        rw [hm0] at hd
        exact (congrArg String.mk hd).trans (by decide)
      · simp only [if_neg hbr]
        refine ⟨rfl, fun he => ?_⟩
        exact absurd (congrArg String.data (Option.some.inj he)) (by simp)

/-- Witness for C4 amended: "(a)" is non-empty, its NFC form (the identity on this
ASCII string) is not "()", and normalization returns a value. -/
theorem c4_normalize_no_crash_amended_witness :
    (normalize_grapheme id "(a)").isSome = true ∧
    (normalize_grapheme id "(a)" = some "" → id "(a)" = "[]" ∨ id "(a)" = "([])") :=
  c4_normalize_no_crash_amended id "(a)" (by decide) (by decide) (by decide)

/-- Counterexample for C4 as stated: the non-empty input "()" (NFC is the identity
on this ASCII string) makes normalize_grapheme fail on the second indexing step
instead of returning the empty string. -/
theorem c4_empty_pair_crash_counterexample :
    ("()" : String) ≠ "" ∧ normalize_grapheme id "()" = none := by decide

/-- C5, amended: a second application of normalize_grapheme leaves its output
unchanged provided the output is non-empty, fixed by NFC, and not itself wrapped
in parentheses or square brackets; a doubly wrapped input such as "((x))"
violates idempotence, see the counterexample. -/
theorem c5_normalize_idempotent_amended (nfc : String → String) (s t : String)
    (h : normalize_grapheme nfc s = some t) (hfix : nfc t = t) (hne : t ≠ "")
    (hp : ¬(t.data.head? = some '(' ∧ t.data.getLast? = some ')'))
    (hb : ¬(t.data.head? = some '[' ∧ t.data.getLast? = some ']')) :
    normalize_grapheme nfc t = some t := by
  unfold normalize_grapheme
  rw [hfix]
  rcases char_list_shape t.data with hd | ⟨c, hd⟩ | ⟨c, d, m, hd⟩
  · exact absurd (congrArg String.mk hd) hne
  · have hcc : ¬(c = '(' ∧ c = ')') := by
      rintro ⟨rfl, hcc⟩; exact absurd hcc (by decide)
    have hbb : ¬(c = '[' ∧ c = ']') := by
      rintro ⟨rfl, hbb⟩; exact absurd hbb (by decide)
    rw [hd]
    simp only [List.head?_cons, List.getLast?_singleton, if_neg hcc, if_neg hbb]
    exact congrArg some (congrArg String.mk hd).symm
  · have hp2 : ¬(c = '(' ∧ d = ')') := by
      rintro ⟨rfl, rfl⟩
      exact hp ⟨by rw [hd]; exact (shape_facts _ _ _).1,
                by rw [hd]; exact (shape_facts _ _ _).2.1⟩
    have hb2 : ¬(c = '[' ∧ d = ']') := by
      rintro ⟨rfl, rfl⟩
      exact hb ⟨by rw [hd]; exact (shape_facts _ _ _).1,
                by rw [hd]; exact (shape_facts _ _ _).2.1⟩
    rw [hd]
    simp only [(shape_facts c d m).1, (shape_facts c d m).2.1, if_neg hp2, if_neg hb2]
    exact congrArg some (congrArg String.mk hd).symm

/-- Witness for C5 amended: normalizing "(x)" gives "x", and normalizing "x"
again gives "x" back. -/
theorem c5_normalize_idempotent_amended_witness :
    normalize_grapheme id "x" = some "x" :=
  c5_normalize_idempotent_amended id "(x)" "x" (by decide) rfl (by decide)
    (by decide) (by decide)

/-- Counterexample for C5 as stated: normalize_grapheme strips only one layer per
application, so on "((x))" the composition of two applications differs from one. -/
theorem c5_not_idempotent_counterexample :
    normalize_grapheme id "((x))" = some "(x)" ∧ normalize_grapheme id "(x)" = some "x" ∧
    ¬((normalize_grapheme id "((x))").bind (normalize_grapheme id) =
        normalize_grapheme id "((x))") := by decide

theorem hexCharVal_hexDigitChar : ∀ n, n < 16 → hexCharVal (hexDigitChar n) = n := by decide

theorem hexDigitChar_ne_u : ∀ n, n < 16 → hexDigitChar n ≠ 'u' := by decide

theorem parseHexFrom_append (acc : Nat) (l1 l2 : List Char) :
    parseHexFrom acc (l1 ++ l2) = parseHexFrom (parseHexFrom acc l1) l2 := by
  unfold parseHexFrom
  exact List.foldl_append _ _ _ _

/-- Decoding is a left inverse of the fuelled hexadecimal rendering. -/
theorem parse_natHexAux : ∀ fuel n acc, n < fuel →
    parseHexFrom acc (natHexAux fuel n) = acc * 16 ^ (natHexAux fuel n).length + n := by
  intro fuel
  induction fuel with
  | zero => intro n acc h; exact absurd h (Nat.not_lt_zero n)
  | succ f ih =>
    intro n acc h
    by_cases h16 : n < 16
    · simp only [natHexAux, if_pos h16]
      show acc * 16 + hexCharVal (hexDigitChar n) = acc * 16 ^ 1 + n
      rw [hexCharVal_hexDigitChar n h16, pow_one]
    · simp only [natHexAux, if_neg h16]
      have hlt : n / 16 < f := by
        have h1 : n / 16 < n := Nat.div_lt_self (by omega) (by omega)
        omega
      rw [parseHexFrom_append, ih (n / 16) acc hlt]
      show (acc * 16 ^ (natHexAux f (n / 16)).length + n / 16) * 16 +
          hexCharVal (hexDigitChar (n % 16)) = _
      rw [hexCharVal_hexDigitChar (n % 16) (Nat.mod_lt _ (by omega))]
      rw [List.length_append, List.length_singleton, pow_succ]
      have expand : (acc * 16 ^ (natHexAux f (n / 16)).length + n / 16) * 16 + n % 16 =
          acc * (16 ^ (natHexAux f (n / 16)).length * 16) + (16 * (n / 16) + n % 16) := by ring
      rw [expand, Nat.div_add_mod]

theorem parse_zeros : ∀ k, parseHexFrom 0 (List.replicate k '0') = 0 := by
  intro k
  induction k with
  | zero => rfl
  | succ k ih =>
    rw [List.replicate_succ]
    show parseHexFrom (0 * 16 + hexCharVal '0') (List.replicate k '0') = 0
    have h0 : 0 * 16 + hexCharVal '0' = 0 := by decide
    rw [h0, ih]

/-- Decoding inverts the zero-padded fingerprint token body. -/
theorem parse_hexPadMin4 (n : Nat) : parseHexFrom 0 (hexPadMin4 n) = n := by
  unfold hexPadMin4
  rw [parseHexFrom_append, parse_zeros]
  have := parse_natHexAux (n + 1) n 0 (Nat.lt_succ_self n)
  unfold natHex
  rw [this, Nat.zero_mul, Nat.zero_add]

theorem hexPadMin4_inj {a b : Nat} (h : hexPadMin4 a = hexPadMin4 b) : a = b := by
  have ha := parse_hexPadMin4 a
  rw [h, parse_hexPadMin4 b] at ha
  exact ha.symm

theorem natHexAux_no_u : ∀ fuel n c, c ∈ natHexAux fuel n → c ≠ 'u' := by
  intro fuel
  induction fuel with
  | zero => intro n c h; simp [natHexAux] at h
  | succ f ih =>
    intro n c h
    by_cases h16 : n < 16
    · simp only [natHexAux, if_pos h16, List.mem_singleton] at h
      subst h
      exact hexDigitChar_ne_u n h16
    · simp only [natHexAux, if_neg h16, List.mem_append, List.mem_singleton] at h
      rcases h with h | h
      · exact ih (n / 16) c h
      · subst h
        exact hexDigitChar_ne_u (n % 16) (Nat.mod_lt _ (by omega))

theorem hexPadMin4_no_u (n : Nat) (c : Char) (h : c ∈ hexPadMin4 n) : c ≠ 'u' := by
  rcases List.mem_append.mp h with h | h
  · rw [List.eq_of_mem_replicate h]
    decide
  · exact natHexAux_no_u _ _ c h

/-- Two concatenations of a u-free block followed by a block that is empty or
starts with u can only be equal blockwise. -/
theorem token_split : ∀ (a b x y : List Char), (∀ c ∈ a, c ≠ 'u') → (∀ c ∈ b, c ≠ 'u') →
    (x = [] ∨ x.head? = some 'u') → (y = [] ∨ y.head? = some 'u') →
    a ++ x = b ++ y → a = b ∧ x = y := by
  intro a
  induction a with
  | nil =>
    intro b x y _ hb hx _ h
    cases b with
    | nil => exact ⟨rfl, h⟩
    | cons c bt =>
      exfalso
      simp only [List.nil_append] at h
      rcases hx with hx | hx
      · rw [hx] at h
        simp at h
      · rw [h] at hx
        simp only [List.cons_append, List.head?_cons, Option.some.injEq] at hx
        exact hb c (by simp) hx
  | cons c t ih =>
    intro b x y ha hb hx hy h
    cases b with
    | nil =>
      exfalso
      simp only [List.nil_append] at h
      rcases hy with hy | hy
      · rw [← h] at hy
        simp at hy
      · rw [← h] at hy
        simp only [List.cons_append, List.head?_cons, Option.some.injEq] at hy
        exact ha c (by simp) hy
    | cons c2 bt =>
      simp only [List.cons_append, List.cons.injEq] at h
      obtain ⟨rfl, h2⟩ := h
      obtain ⟨h3, h4⟩ := ih bt x y (fun d hd => ha d (by simp [hd]))
        (fun d hd => hb d (by simp [hd])) hx hy h2
      exact ⟨by rw [h3], h4⟩

theorem flatten_startsU (cs : List Char) :
    (cs.map uToken).flatten = [] ∨ ((cs.map uToken).flatten).head? = some 'u' := by
  cases cs with
  | nil => exact Or.inl rfl
  | cons c t =>
    right
    simp only [List.map_cons, List.flatten_cons, uToken, List.cons_append, List.head?_cons]

/-- The concatenated u-token fingerprint determines the character list. -/
theorem uTokens_inj : ∀ cs1 cs2 : List Char,
    (cs1.map uToken).flatten = (cs2.map uToken).flatten → cs1 = cs2 := by
  intro cs1
  induction cs1 with
  | nil =>
    intro cs2 h
    cases cs2 with
    | nil => rfl
    | cons c t =>
      exfalso
      simp [uToken] at h
  | cons c t ih =>
    intro cs2 h
    cases cs2 with
    | nil =>
      exfalso
      simp [uToken] at h
    | cons c2 t2 =>
      simp only [List.map_cons, List.flatten_cons, uToken, List.cons_append,
        List.cons.injEq] at h
      obtain ⟨-, h2⟩ := h
      obtain ⟨hpad, hrest⟩ := token_split _ _ _ _
        (fun d hd => hexPadMin4_no_u _ d hd) (fun d hd => hexPadMin4_no_u _ d hd)
        (flatten_startsU t) (flatten_startsU t2) h2
      have hn : c.toNat = c2.toNat := hexPadMin4_inj hpad
      have hc : c = c2 := Char.ext (UInt32.ext hn)
      rw [hc, ih t2 hrest]

/-- C7: compute_id is the deterministic concatenation of the slug label, an
underscore and the code-point fingerprint, and the fingerprint half is injective:
two distinct strings, that is two distinct code-point sequences, never share it. -/
theorem c7_fingerprint_injective (slugFn unidecodeFn : String → String)
    (text s1 s2 : String) (hne : s1 ≠ s2) :
    compute_id slugFn unidecodeFn text = slugFn (unidecodeFn text) ++ "_" ++ unicode_repr text ∧
    unicode_repr s1 ≠ unicode_repr s2 := by
  refine ⟨rfl, fun h => hne ?_⟩
  have hdata : (s1.data.map uToken).flatten = (s2.data.map uToken).flatten :=
    congrArg String.data h
  exact congrArg String.mk (uTokens_inj _ _ hdata)

/-- Witness for C7 on the distinct strings "a" and "b". -/
theorem c7_fingerprint_injective_witness :
    compute_id (fun _ => "") (fun _ => "") "a" = "" ++ "_" ++ unicode_repr "a" ∧
    unicode_repr "a" ≠ unicode_repr "b" :=
  c7_fingerprint_injective (fun _ => "") (fun _ => "") "a" "a" "b" (by decide)

/-- Shifting the accumulated prefix out of the row pairing. -/
theorem cumRowsAux_shift (rows : List Row) (acc : List Row) :
    cumRowsAux acc rows = (cumRowsAux [] rows).map (fun p => (acc ++ p.1, p.2)) := by
  induction rows generalizing acc with
  | nil => rfl
  | cons r rs ih =>
    simp only [cumRowsAux, List.map_cons, List.nil_append]
    congr 1
    rw [ih (acc ++ [r]), ih [r]]
    simp [List.map_map, Function.comp, List.append_assoc]

theorem lastField_append (f : String) (init : Option String) (l1 l2 : List Row) :
    lastField f init (l1 ++ l2) = lastField f (lastField f init l1) l2 := by
  unfold lastField
  exact List.foldl_append _ _ _ _

/-- The stateful row loop of read_phoible_common equals a per-row pure function of
the row and its inclusive prefix: each emitted entry carries the last non-empty
InventoryID and LanguageName cell seen up to its row. -/
theorem readCommonAux_char (segField source : String) :
    ∀ (rows : List Row) (inv lang : Option String),
    readCommonAux segField source rows inv lang =
      (cumRows rows).filterMap (fun p =>
        if rowGet p.2 segField ≠ "" then
          some (mkCommonEntry source (lastField "InventoryID" inv p.1)
            (lastField "LanguageName" lang p.1) (rowGet p.2 segField))
        else none) := by
  intro rows
  induction rows with
  | nil => intro inv lang; rfl
  | cons r rs ih =>
    intro inv lang
    have htail :
        ((cumRowsAux [r] rs).filterMap (fun p =>
          if rowGet p.2 segField ≠ "" then
            some (mkCommonEntry source (lastField "InventoryID" inv p.1)
              (lastField "LanguageName" lang p.1) (rowGet p.2 segField))
          else none)) =
        readCommonAux segField source rs
          (if rowGet r "InventoryID" ≠ "" then some (rowGet r "InventoryID") else inv)
          (if rowGet r "LanguageName" ≠ "" then some (rowGet r "LanguageName") else lang) := by
      rw [cumRowsAux_shift rs [r], List.filterMap_map, ih]
      apply List.filterMap_congr
      intro p hp
      simp only [Function.comp]
      rw [lastField_append, lastField_append]
      rfl
    unfold cumRows
    simp only [cumRowsAux, List.nil_append]
    by_cases hseg : rowGet r segField = ""
    · simp only [List.filterMap_cons]
      try dsimp only
      rw [if_neg (not_not_intro hseg)]
      try dsimp only
      rw [htail]
      simp only [readCommonAux]
      rw [if_neg (not_not_intro hseg)]
    · simp only [List.filterMap_cons]
      try dsimp only
      rw [if_pos hseg]
      try dsimp only
      rw [htail]
      simp only [readCommonAux]
      rw [if_pos hseg]
      rfl

/-- An entry emitted by the row loop never has an empty raw segment. -/
theorem readCommonAux_seg_ne (segField source : String) :
    ∀ (rows : List Row) (inv lang : Option String) (e : RawEntry),
    e ∈ readCommonAux segField source rows inv lang → e.segment_raw ≠ "" := by
  intro rows
  induction rows with
  | nil => intro inv lang e h; simp [readCommonAux] at h
  | cons r rs ih =>
    intro inv lang e h
    simp only [readCommonAux] at h
    by_cases hseg : rowGet r segField = ""
    · rw [if_neg (not_not_intro hseg)] at h
      exact ih _ _ e h
    · rw [if_pos hseg] at h
      rcases List.mem_cons.mp h with h | h
      · subst h; exact hseg
      · exact ih _ _ e h

/-- C9: the row-inheritance reader selects its segment column by priority
PhonemeOld, else Segment, else Phoneme; it never emits an entry for a row with an
empty segment cell; and each emitted entry carries the last non-empty inventory id
and language name seen up to its row, as characterized by the prefix fold. -/
theorem c9_row_inheritance_reader (fieldnames : List String) (rows : List Row) (source : String) :
    (("PhonemeOld" ∈ fieldnames → selectSegmentField fieldnames = "PhonemeOld") ∧
     ("PhonemeOld" ∉ fieldnames → "Segment" ∈ fieldnames →
        selectSegmentField fieldnames = "Segment") ∧
     ("PhonemeOld" ∉ fieldnames → "Segment" ∉ fieldnames →
        selectSegmentField fieldnames = "Phoneme")) ∧
    (∀ e ∈ read_phoible_common fieldnames rows source, e.segment_raw ≠ "") ∧
    (read_phoible_common fieldnames rows source =
      (cumRows rows).filterMap (fun p =>
        if rowGet p.2 (selectSegmentField fieldnames) ≠ "" then
          some (mkCommonEntry source (lastField "InventoryID" none p.1)
            (lastField "LanguageName" none p.1) (rowGet p.2 (selectSegmentField fieldnames)))
        else none)) := by
  refine ⟨⟨fun h => ?_, fun h1 h2 => ?_, fun h1 h2 => ?_⟩, ?_, ?_⟩
  · simp [selectSegmentField, h]
  · simp [selectSegmentField, h1, h2]
  · simp [selectSegmentField, h1, h2]
  · intro e he
    exact readCommonAux_seg_ne _ _ rows none none e he
  · exact readCommonAux_char _ _ rows none none

/-- Witness for C9: the column priority on a concrete header, and the carry-forward
on the two-row example where the second row has empty InventoryID and LanguageName
cells: both emitted entries carry inventory "A" and language "L1". -/
theorem c9_row_inheritance_reader_witness :
    selectSegmentField ["InventoryID", "LanguageName", "Segment"] = "Segment" ∧
    read_phoible_common ["InventoryID", "LanguageName", "Phoneme"]
      [[("InventoryID", "A"), ("LanguageName", "L1"), ("Phoneme", "p")],
       [("InventoryID", ""), ("LanguageName", ""), ("Phoneme", "t")]] "GM" =
      [mkCommonEntry "GM" (some "A") (some "L1") "p",
       mkCommonEntry "GM" (some "A") (some "L1") "t"] := by
  constructor
  · exact (c9_row_inheritance_reader ["InventoryID", "LanguageName", "Segment"] [] "AA").1.2.1
      (by decide) (by decide)
  · exact ((c9_row_inheritance_reader ["InventoryID", "LanguageName", "Phoneme"]
      [[("InventoryID", "A"), ("LanguageName", "L1"), ("Phoneme", "p")],
       [("InventoryID", ""), ("LanguageName", ""), ("Phoneme", "t")]] "GM").2.2).trans (by decide)

end MyPhoible
